import Mathlib

/-!
# Verification of the `llms-txt-plugin` in the erc7824/website Docusaurus config

This file embeds the `pluginLlmsTxt` plugin of `docusaurus.config.js` into
Lean 4:

* `collectList` / `collect` model the recursive `getMdxFiles` traversal of
  `loadContent`: it walks the `docs` content directory, and for every plain
  file whose name ends in `.mdx` or `.md` and whose full path contains the
  substring `"nitrolite"` it reads the file and appends its raw content to the
  accumulator.  Filesystem failures (an unreadable directory, an unreadable
  matched file) reject the corresponding promise, aborting the collection.

* `postBuild` models the plugin's `postBuild` hook: it writes
  `llms-full.txt` (the collected documents joined with `"\n\n---\n\n"`),
  selects the first route whose `plugin.name` is
  `"docusaurus-plugin-content-docs"`, then the first of its sub-routes whose
  `path` is `"/"`, and, when that sub-route carries `props.version`, writes
  `llms.txt`, a Markdown index built from `version.docs`.  When no route
  matches the plugin name, the JavaScript dereferences `undefined` and throws
  a `TypeError`; the model records that as an `Except.error`.

The filesystem is modelled as a finite tree of entries; reading a file or
listing a directory may fail, which the model represents with a `readable`
flag on files and with an `unreadableDir` node.  The tree is a pair of
mutually inductive types (`Entry` for one node, `EntryList` for a directory
listing in its listing order), so that every traversal below is a structural
recursion that the kernel can evaluate on concrete trees.
-/

/-- Filesystem errors are carried as plain message strings (the embedding of
rejected Node.js promises from `fs.promises`). -/
abbrev FsError := String

mutual
/-- A node of the directory tree seen by `getMdxFiles`:
a plain file with its name, content and readability, a readable directory with
its listing, or a directory whose `readdir` fails. -/
inductive Entry where
  | file (name : String) (content : String) (readable : Bool)
  | dir (name : String) (entries : EntryList)
  | unreadableDir (name : String)

/-- A directory listing, in directory-listing order. -/
inductive EntryList where
  | nil
  | cons (e : Entry) (rest : EntryList)
end

/-- `path.join dir name` for the POSIX paths the plugin builds. -/
def joinPath (dir name : String) : String := dir ++ "/" ++ name

/-- JavaScript `String.prototype.includes`: `s` contains `sub` as a
contiguous substring. -/
def strIncludes (s sub : String) : Bool := decide (sub.data <:+: s.data)

/-- JavaScript `String.prototype.endsWith`: `suffix` is a suffix of `s`. -/
def strEndsWith (s suffix : String) : Bool := decide (suffix.data <:+ s.data)

/-- The file filter of `getMdxFiles`: the entry name ends with `.mdx` or
`.md`, and the full path contains `"nitrolite"`. -/
def matchesFilter (name fullPath : String) : Bool :=
  (strEndsWith name ".mdx" || strEndsWith name ".md") && strIncludes fullPath "nitrolite"

/-- `fs.promises.readFile(fullPath, "utf8")`: succeeds with the content when
the file is readable, rejects otherwise. -/
def readFile (fullPath content : String) (readable : Bool) : Except FsError String :=
  if readable then .ok content else .error ("EACCES: open " ++ fullPath)

/-- The body of `getMdxFiles(dir)` applied to the listing of `dir`: iterate
the entries in order; recurse into directories; for a file passing
`matchesFilter`, read it and push its content.  The first rejected promise
aborts the whole collection. -/
def collectList (dirPath : String) : EntryList → Except FsError (List String)
  | .nil => .ok []
  | .cons (.file name content readable) rest =>
    let fullPath := joinPath dirPath name
    if matchesFilter name fullPath then
      match readFile fullPath content readable with
      | .error e => .error e
      | .ok c =>
        match collectList dirPath rest with
        | .error e => .error e
        | .ok ys => .ok (c :: ys)
    else
      collectList dirPath rest
  | .cons (.dir name sub) rest =>
    match collectList (joinPath dirPath name) sub with
    | .error e => .error e
    | .ok xs =>
      match collectList dirPath rest with
      | .error e => .error e
      | .ok ys => .ok (xs ++ ys)
  | .cons (.unreadableDir name) _ =>
    .error ("EACCES: scandir " ++ joinPath dirPath name)

/-- `loadContent`'s call `getMdxFiles(contentDir)`: listing the root
directory itself may fail (missing or unreadable root), in which case the
error propagates; otherwise the traversal runs on the root listing. -/
def collect (rootDir : String) (root : Except FsError EntryList) :
    Except FsError (List String) :=
  match root with
  | .error e => .error e
  | .ok entries => collectList rootDir entries

/-! ## The `postBuild` hook -/

/-- The `plugin` field of a Docusaurus `PluginRouteConfig`. -/
structure Plugin where
  name : String

/-- One entry of `version.docs`: the doc's display metadata (the key of the
mapping is the route path). -/
structure DocRecord where
  title : String
  description : String

/-- The `props.version` payload carried by the docs root route; `docs` is the
path-indexed mapping, kept in its JavaScript iteration order. -/
structure Version where
  docs : List (String × DocRecord)

/-- The optional `props` of a sub-route. -/
structure Props where
  version : Option Version

/-- A sub-route of the docs plugin route: its `path` and optional `props`. -/
structure SubRoute where
  path : String
  props : Option Props

/-- A top-level route: the owning plugin and an optional `routes` listing. -/
structure Route where
  plugin : Plugin
  routes : Option (List SubRoute)

/-- A thrown JavaScript exception (here: dereferencing `undefined`). -/
inductive JsError where
  | typeError (msg : String)
deriving DecidableEq

/-- What `postBuild` writes: the content of `llms-full.txt` (always written
first), and the fate of `llms.txt`: `Except.error` when the hook throws,
`.ok none` when index generation is skipped by the early `return`, and
`.ok (some s)` when `llms.txt` is written with content `s`. -/
structure BuildOutput where
  llmsFull : String
  llmsTxt : Except JsError (Option String)

/-- The plugin-name selector `route.plugin.name === "docusaurus-plugin-content-docs"`. -/
def isDocsPluginRoute (r : Route) : Bool :=
  r.plugin.name == "docusaurus-plugin-content-docs"

/-- The chain `docsPluginRouteConfig.routes?.filter((route) => route.path === "/")[0]`
followed by `?.props?.version`: the first sub-route at path `"/"`, when the
node has a `routes` listing, and that sub-route's `version` props. -/
def selectVersion (node : Route) : Option Version :=
  match node.routes.bind (fun rs => (rs.filter (fun r => r.path == "/")).head?) with
  | none => none
  | some allDocsRouteConfig => allDocsRouteConfig.props.bind (fun p => p.version)

/-- One bullet of `llms.txt`: `- [${record.title}](${path}): ${record.description}`. -/
def renderDocsRecord (entry : String × DocRecord) : String :=
  "- [" ++ entry.2.title ++ "](" ++ entry.1 ++ "): " ++ entry.2.description

/-- The `postBuild` hook of the plugin.  `allMdx` is the content loaded by
`loadContent`, `routes` the route table, `siteTitle` the value of
`context.siteConfig.title`. -/
def postBuild (allMdx : List String) (routes : List Route) (siteTitle : String) :
    BuildOutput :=
  let llmsFull := String.intercalate "\n\n---\n\n" allMdx
  let llmsTxt :=
    match (routes.filter isDocsPluginRoute).head? with
    | none =>
      Except.error
        (JsError.typeError "Cannot read properties of undefined (reading routes)")
    | some docsPluginRouteConfig =>
      match selectVersion docsPluginRouteConfig with
      | none => Except.ok none
      | some version =>
        Except.ok (some ("# " ++ siteTitle ++ "\n\n## Docs\n\n" ++
          String.intercalate "\n" (version.docs.map renderDocsRecord)))
  ⟨llmsFull, llmsTxt⟩

/-! ## Spec-side enumerations and auxiliary instrumentation -/

/-- Spec-side enumeration for the refinement claim about `collect`: the
verbatim contents of exactly the files whose name matches an extension and
whose full path contains the filter substring, in depth-first traversal order
following the directory-listing order, without deduplication.  Written from
the spec's words, to be compared with `collectList`. -/
def specMatchedContents (dirPath : String) : EntryList → List String
  | .nil => []
  | .cons (.file name content _) rest =>
    (if matchesFilter name (joinPath dirPath name) then [content] else []) ++
      specMatchedContents dirPath rest
  | .cons (.dir name sub) rest =>
    specMatchedContents (joinPath dirPath name) sub ++ specMatchedContents dirPath rest
  | .cons (.unreadableDir _) rest => specMatchedContents dirPath rest

/-- The full paths of exactly the filter-matching files of the tree, in
depth-first traversal order. -/
def specMatchedPaths (dirPath : String) : EntryList → List String
  | .nil => []
  | .cons (.file name _ _) rest =>
    (if matchesFilter name (joinPath dirPath name) then [joinPath dirPath name] else []) ++
      specMatchedPaths dirPath rest
  | .cons (.dir name sub) rest =>
    specMatchedPaths (joinPath dirPath name) sub ++ specMatchedPaths dirPath rest
  | .cons (.unreadableDir _) rest => specMatchedPaths dirPath rest

/-- A tree is clean when every directory listing succeeds and every
filter-matching file is readable.  Non-matching files may be unreadable. -/
def cleanList (dirPath : String) : EntryList → Bool
  | .nil => true
  | .cons (.file name _ readable) rest =>
    (if matchesFilter name (joinPath dirPath name) then readable else true) &&
      cleanList dirPath rest
  | .cons (.dir name sub) rest =>
    cleanList (joinPath dirPath name) sub && cleanList dirPath rest
  | .cons (.unreadableDir _) _ => false

/-- Some filter-matching file of the tree is unreadable. -/
def hasUnreadableMatch (dirPath : String) : EntryList → Bool
  | .nil => false
  | .cons (.file name _ readable) rest =>
    (matchesFilter name (joinPath dirPath name) && !readable) ||
      hasUnreadableMatch dirPath rest
  | .cons (.dir name sub) rest =>
    hasUnreadableMatch (joinPath dirPath name) sub || hasUnreadableMatch dirPath rest
  | .cons (.unreadableDir _) rest => hasUnreadableMatch dirPath rest

/-- `collectList` instrumented with the trace of full paths passed to
`fs.promises.readFile`, in the order the reads are issued; the traversal
still aborts at the first failure, so later files are not read. -/
def collectTraceList (dirPath : String) :
    EntryList → List String × Except FsError (List String)
  | .nil => ([], .ok [])
  | .cons (.file name content readable) rest =>
    let fullPath := joinPath dirPath name
    if matchesFilter name fullPath then
      match readFile fullPath content readable with
      | .error e => ([fullPath], .error e)
      | .ok c =>
        match collectTraceList dirPath rest with
        | (reads, .error e) => (fullPath :: reads, .error e)
        | (reads, .ok ys) => (fullPath :: reads, .ok (c :: ys))
    else
      collectTraceList dirPath rest
  | .cons (.dir name sub) rest =>
    match collectTraceList (joinPath dirPath name) sub with
    | (reads, .error e) => (reads, .error e)
    | (reads, .ok xs) =>
      match collectTraceList dirPath rest with
      | (reads2, .error e) => (reads ++ reads2, .error e)
      | (reads2, .ok ys) => (reads ++ reads2, .ok (xs ++ ys))
  | .cons (.unreadableDir name) _ =>
    ([], .error ("EACCES: scandir " ++ joinPath dirPath name))

/-- Nesting depth of a directory tree. -/
def depthList : EntryList → Nat
  | .nil => 0
  | .cons (.file _ _ _) rest => depthList rest
  | .cons (.dir _ sub) rest => Nat.max (depthList sub + 1) (depthList rest)
  | .cons (.unreadableDir _) rest => depthList rest

/-- Fuel-indexed variant of `collectList`, consuming one unit of fuel for
each directory descent; `none` means the fuel ran out. -/
def collectFuelList (fuel : Nat) (dirPath : String) :
    EntryList → Option (Except FsError (List String))
  | .nil => some (.ok [])
  | .cons (.file name content readable) rest =>
    let fullPath := joinPath dirPath name
    if matchesFilter name fullPath then
      match readFile fullPath content readable with
      | .error e => some (.error e)
      | .ok c =>
        match collectFuelList fuel dirPath rest with
        | none => none
        | some (.error e) => some (.error e)
        | some (.ok ys) => some (.ok (c :: ys))
    else
      collectFuelList fuel dirPath rest
  | .cons (.dir name sub) rest =>
    match fuel with
    | 0 => none
    | f + 1 =>
      match collectFuelList f (joinPath dirPath name) sub with
      | none => none
      | some (.error e) => some (.error e)
      | some (.ok xs) =>
        match collectFuelList (f + 1) dirPath rest with
        | none => none
        | some (.error e) => some (.error e)
        | some (.ok ys) => some (.ok (xs ++ ys))
  | .cons (.unreadableDir name) _ =>
    some (.error ("EACCES: scandir " ++ joinPath dirPath name))

/-! ## Helper lemmas -/

/-- JavaScript `array.filter(p)[0]` returns the first element satisfying `p`:
everything before the first hit and everything after it is irrelevant. -/
theorem filter_head_first {α : Type} (p : α → Bool) (pre : List α)
    (hpre : ∀ x ∈ pre, p x = false) (a : α) (ha : p a = true) (post : List α) :
    ((pre ++ a :: post).filter p).head? = some a := by
  induction pre with
  | nil => simp [List.filter_cons_of_pos ha]
  | cons b bs ih =>
    have hb : ¬ p b = true := by simp [hpre b (by simp)]
    rw [List.cons_append, List.filter_cons_of_neg hb]
    exact ih (fun x hx => hpre x (by simp [hx]))

/-- Structural induction over a directory listing, following the recursion
pattern of `getMdxFiles`: files and unreadable directories step to the rest
of the listing, directories additionally descend into their own listing. -/
theorem entryList_induction (P : String → EntryList → Prop)
    (h1 : ∀ d, P d .nil)
    (h2 : ∀ d n c r rest, P d rest → P d (.cons (.file n c r) rest))
    (h3 : ∀ d n sub rest, P (joinPath d n) sub → P d rest → P d (.cons (.dir n sub) rest))
    (h4 : ∀ d n rest, P d rest → P d (.cons (.unreadableDir n) rest)) :
    ∀ (d : String) (es : EntryList), P d es
  | d, .nil => h1 d
  | d, .cons (.file n c r) rest =>
    h2 d n c r rest (entryList_induction P h1 h2 h3 h4 d rest)
  | d, .cons (.dir n sub) rest =>
    h3 d n sub rest (entryList_induction P h1 h2 h3 h4 (joinPath d n) sub)
      (entryList_induction P h1 h2 h3 h4 d rest)
  | d, .cons (.unreadableDir n) rest =>
    h4 d n rest (entryList_induction P h1 h2 h3 h4 d rest)

/-- On a clean tree the traversal succeeds and returns exactly the spec-side
enumeration of matching file contents. -/
theorem collectList_clean_eq_spec :
    ∀ (dirPath : String) (es : EntryList), cleanList dirPath es = true →
      collectList dirPath es = Except.ok (specMatchedContents dirPath es) := by
  intro dirPath es
  induction dirPath, es using entryList_induction with
  | h1 d => intro _; simp [collectList, specMatchedContents]
  | h2 d n c r rest ih =>
    intro h
    by_cases hm : matchesFilter n (joinPath d n) = true
    · simp only [cleanList, hm, if_true, Bool.and_eq_true] at h
      obtain ⟨hr, hrest⟩ := h
      subst hr
      simp [collectList, specMatchedContents, hm, readFile, ih hrest]
    · simp only [cleanList, hm, if_false, Bool.and_eq_true, if_neg] at h
      simp [collectList, specMatchedContents, hm, ih h.2]
  | h3 d n sub rest ihsub ihrest =>
    intro h
    simp only [cleanList, Bool.and_eq_true] at h
    simp [collectList, specMatchedContents, ihsub h.1, ihrest h.2]
  | h4 d n rest ih =>
    intro h
    simp [cleanList] at h

/-- The instrumented traversal computes the same result as the plain one. -/
theorem collectTraceList_result :
    ∀ (dirPath : String) (es : EntryList),
      (collectTraceList dirPath es).2 = collectList dirPath es := by
  intro dirPath es
  induction dirPath, es using entryList_induction with
  | h1 d => simp [collectTraceList, collectList]
  | h2 d n c r rest ih =>
    by_cases hm : matchesFilter n (joinPath d n) = true
    · cases r with
      | false => simp [collectTraceList, collectList, hm, readFile]
      | true =>
        rcases htr : collectTraceList d rest with ⟨reads, res⟩
        rw [htr] at ih
        simp only [] at ih
        cases res with
        | error e => simp [collectTraceList, collectList, hm, readFile, htr, ← ih]
        | ok ys => simp [collectTraceList, collectList, hm, readFile, htr, ← ih]
    · simp only [collectTraceList, collectList, hm, if_false]
      exact ih
  | h3 d n sub rest ihsub ihrest =>
    rcases htr1 : collectTraceList (joinPath d n) sub with ⟨r1, res1⟩
    rw [htr1] at ihsub
    rcases htr2 : collectTraceList d rest with ⟨r2, res2⟩
    rw [htr2] at ihrest
    cases res1 with
    | error e => simp [collectTraceList, collectList, htr1, ← ihsub]
    | ok xs =>
      cases res2 with
      | error e => simp [collectTraceList, collectList, htr1, htr2, ← ihsub, ← ihrest]
      | ok ys => simp [collectTraceList, collectList, htr1, htr2, ← ihsub, ← ihrest]
  | h4 d n rest ih => simp [collectTraceList, collectList]

/-- When the traversal succeeds, the files read are exactly the matching
files, in traversal order. -/
theorem collectTraceList_ok_reads_eq :
    ∀ (dirPath : String) (es : EntryList) (xs : List String),
      (collectTraceList dirPath es).2 = Except.ok xs →
      (collectTraceList dirPath es).1 = specMatchedPaths dirPath es := by
  intro dirPath es
  induction dirPath, es using entryList_induction with
  | h1 d => intro xs _; simp [collectTraceList, specMatchedPaths]
  | h2 d n c r rest ih =>
    intro xs hok
    by_cases hm : matchesFilter n (joinPath d n) = true
    · cases r with
      | false => simp [collectTraceList, hm, readFile] at hok
      | true =>
        rcases htr : collectTraceList d rest with ⟨reads, res⟩
        rw [htr] at ih
        simp only [collectTraceList, hm, if_true, readFile, htr] at hok ⊢
        cases res with
        | error e => simp at hok
        | ok ys =>
          have hreads := ih ys rfl
          simp only [List.singleton_append] at hreads ⊢
          simp [specMatchedPaths, hm, hreads]
    · simp only [collectTraceList, hm, if_false] at hok
      simp [collectTraceList, specMatchedPaths, hm, ih xs hok]
  | h3 d n sub rest ihsub ihrest =>
    intro xs hok
    rcases htr1 : collectTraceList (joinPath d n) sub with ⟨r1, res1⟩
    rw [htr1] at ihsub
    rcases htr2 : collectTraceList d rest with ⟨r2, res2⟩
    rw [htr2] at ihrest
    simp only [collectTraceList, htr1, htr2] at hok ⊢
    cases res1 with
    | error e => simp at hok
    | ok ys =>
      cases res2 with
      | error e => simp at hok
      | ok zs =>
        have hq1 : r1 = specMatchedPaths (joinPath d n) sub := ihsub ys rfl
        have hq2 : r2 = specMatchedPaths d rest := ihrest zs rfl
        simp only [specMatchedPaths]
        rw [hq1, hq2]
  | h4 d n rest ih =>
    intro xs hok
    simp [collectTraceList] at hok

/-- The files read by the traversal are always an initial segment of the
matching files in traversal order: the traversal never opens a
non-matching file, even when it aborts early. -/
theorem collectTraceList_reads_initialSegment :
    ∀ (dirPath : String) (es : EntryList),
      (collectTraceList dirPath es).1 <+: specMatchedPaths dirPath es := by
  intro dirPath es
  induction dirPath, es using entryList_induction with
  | h1 d => simp [collectTraceList, specMatchedPaths]
  | h2 d n c r rest ih =>
    by_cases hm : matchesFilter n (joinPath d n) = true
    · cases r with
      | false =>
        simp only [collectTraceList, specMatchedPaths, hm, if_true, readFile, if_false]
        simp only [List.singleton_append]
        exact ⟨specMatchedPaths d rest, rfl⟩
      | true =>
        rcases htr : collectTraceList d rest with ⟨reads, res⟩
        rw [htr] at ih
        simp only [collectTraceList, specMatchedPaths, hm, if_true, readFile, htr]
        cases res with
        | error e =>
          simp only [List.singleton_append]
          exact List.cons_prefix_cons.mpr ⟨rfl, ih⟩
        | ok ys =>
          simp only [List.singleton_append]
          exact List.cons_prefix_cons.mpr ⟨rfl, ih⟩
    · simp only [collectTraceList, specMatchedPaths, hm, if_false]
      simpa using ih
  | h3 d n sub rest ihsub ihrest =>
    rcases htr1 : collectTraceList (joinPath d n) sub with ⟨r1, res1⟩
    rw [htr1] at ihsub
    rcases htr2 : collectTraceList d rest with ⟨r2, res2⟩
    rw [htr2] at ihrest
    simp only [collectTraceList, specMatchedPaths, htr1, htr2]
    cases res1 with
    | error e =>
      exact ihsub.trans (List.prefix_append _ _)
    | ok ys =>
      have hr1 : r1 = specMatchedPaths (joinPath d n) sub := by
        have heq := collectTraceList_ok_reads_eq (joinPath d n) sub ys (by rw [htr1])
        rw [htr1] at heq
        exact heq
      subst hr1
      cases res2 with
      | error e =>
        exact (List.prefix_append_right_inj _).mpr ihrest
      | ok zs =>
        exact (List.prefix_append_right_inj _).mpr ihrest
  | h4 d n rest ih =>
    simp [collectTraceList, specMatchedPaths]

/-! ## Claims -/

/-- C7: `collect` is deterministic and idempotent with respect to an
unchanged directory tree: on a fixed directory tree (with a fixed listing
order), two runs of the collection produce byte-identical output sequences.
In the shallow embedding the traversal is a pure function of the tree, so
the two-run equality is reflexivity. -/
theorem collect_idempotent (rootDir : String) (root : Except FsError EntryList) :
    collect rootDir root = collect rootDir root :=
  rfl

/-- C5: whenever the collection succeeded, `postBuild` writes the
full-corpus file: its content is computed before any inspection of the
route table, so it does not depend on the route table at all, and no
route-table shape defect can prevent it. -/
theorem llmsFull_always_written (allMdx : List String) (siteTitle : String)
    (routes routes2 : List Route) :
    (postBuild allMdx routes siteTitle).llmsFull =
        (postBuild allMdx routes2 siteTitle).llmsFull ∧
      (postBuild allMdx routes siteTitle).llmsFull =
        String.intercalate "\n\n---\n\n" allMdx :=
  ⟨rfl, rfl⟩

/-- C4 (counterpart of the round-trip claim): when `collect` succeeds with
the document sequence `l`, the content of `llms-full.txt` written by
`postBuild` is exactly the elements of `l` joined pairwise with the
separator `"\n\n---\n\n"`, and the empty sequence yields the empty file. -/
theorem llmsFull_roundtrip (rootDir siteTitle : String)
    (root : Except FsError EntryList) (routes : List Route) (l : List String)
    (h : collect rootDir root = Except.ok l) :
    (postBuild l routes siteTitle).llmsFull = String.intercalate "\n\n---\n\n" l ∧
      (postBuild [] routes siteTitle).llmsFull = "" :=
  ⟨rfl, rfl⟩

/-- A two-file `nitrolite` directory. -/
def pairTree : EntryList :=
  .cons (.dir "nitrolite"
    (.cons (.file "a.md" "AAA" true) (.cons (.file "b.mdx" "BBB" true) .nil))) .nil

/-- Witness for C4 at a concrete tree: collecting the two-file `nitrolite`
directory and emitting reproduces the two documents joined by the
separator. -/
theorem llmsFull_roundtrip_witness :
    collect "/docs" (Except.ok pairTree) = Except.ok ["AAA", "BBB"] ∧
      (postBuild ["AAA", "BBB"] [] "T").llmsFull = "AAA\n\n---\n\nBBB" ∧
      (postBuild [] [] "T").llmsFull = "" := by
  have hcoll : collect "/docs" (Except.ok pairTree) = Except.ok ["AAA", "BBB"] := rfl
  have h2 := llmsFull_roundtrip "/docs" "T" (Except.ok pairTree) [] ["AAA", "BBB"] hcoll
  exact ⟨hcoll, h2.1, h2.2⟩

/-- C2 counterexample: on a route table with no route node for the docs
plugin (here: the empty table), `postBuild` is not a non-fatal no-op — the
JavaScript dereferences `undefined` and throws a `TypeError`, failing the
hook. -/
theorem postBuild_throws_without_plugin_node :
    (postBuild ["x"] [] "T").llmsTxt =
      Except.error
        (JsError.typeError "Cannot read properties of undefined (reading routes)") :=
  rfl

/-- C2 (amended): when a route node with the docs-plugin identifier exists
but the selection of a `"/"` sub-route carrying `version` metadata comes up
empty, `postBuild` skips index generation with an early `return` (no
exception, and no warning is logged), and the full-corpus file is still
written; when no route node matches the plugin identifier at all, the hook
instead throws a `TypeError` (see the counterexample), after the full-corpus
write. -/
theorem postBuild_skips_index_nonfatally (allMdx : List String)
    (routes : List Route) (siteTitle : String) (node : Route)
    (h1 : (routes.filter isDocsPluginRoute).head? = some node)
    (h2 : selectVersion node = none) :
    (postBuild allMdx routes siteTitle).llmsTxt = Except.ok none ∧
      (postBuild allMdx routes siteTitle).llmsFull =
        String.intercalate "\n\n---\n\n" allMdx := by
  constructor
  · simp only [postBuild, h1, h2]
  · rfl

/-- Witness for C2 at a concrete route table: a docs-plugin node with an
empty sub-route listing makes `postBuild` skip `llms.txt` and still write
`llms-full.txt`. -/
theorem postBuild_skips_index_nonfatally_witness :
    (([({ plugin := { name := "docusaurus-plugin-content-docs" },
          routes := some [] } : Route)].filter isDocsPluginRoute).head? =
        some { plugin := { name := "docusaurus-plugin-content-docs" }, routes := some [] }) ∧
      (postBuild ["x"]
          [{ plugin := { name := "docusaurus-plugin-content-docs" }, routes := some [] }]
          "T").llmsTxt = Except.ok none :=
  ⟨rfl,
    (postBuild_skips_index_nonfatally ["x"]
      [{ plugin := { name := "docusaurus-plugin-content-docs" }, routes := some [] }]
      "T" { plugin := { name := "docusaurus-plugin-content-docs" }, routes := some [] }
      rfl rfl).1⟩

/-- C3: whenever the route selection yields a `version` mapping, the index
file written by `postBuild` is exactly the header `"# " ++ siteTitle ++
"\n\n## Docs\n\n"` followed by one bullet `- [title](path): description`
per entry of `version.docs`, joined by single newlines in the iteration
order of the mapping; the number of bullets equals the number of entries. -/
theorem postBuild_index_content (allMdx : List String) (routes : List Route)
    (siteTitle : String) (node : Route) (v : Version)
    (h1 : (routes.filter isDocsPluginRoute).head? = some node)
    (h2 : selectVersion node = some v) :
    (postBuild allMdx routes siteTitle).llmsTxt =
      Except.ok (some ("# " ++ siteTitle ++ "\n\n## Docs\n\n" ++
        String.intercalate "\n" (v.docs.map (fun entry =>
          "- [" ++ entry.2.title ++ "](" ++ entry.1 ++ "): " ++ entry.2.description)))) ∧
      (v.docs.map renderDocsRecord).length = v.docs.length := by
  constructor
  · simp only [postBuild, h1, h2]
    rfl
  · simp [List.length_map]

/-- The docs record of the worked example in the spec:
`{"/intro": {title: "Introduction", description: "Start here"}}`. -/
def introVersion : Version :=
  { docs := [("/intro", { title := "Introduction", description := "Start here" })] }

/-- A docs-plugin route node whose `"/"` sub-route carries `introVersion`. -/
def introDocsNode : Route :=
  { plugin := { name := "docusaurus-plugin-content-docs" },
    routes := some [{ path := "/", props := some { version := some introVersion } }] }

/-- Witness for C3 at the mapping of the claim:
`{"/intro": {title: "Introduction", description: "Start here"}}` with site
title `"My Docs"` produces exactly
`"# My Docs\n\n## Docs\n\n- [Introduction](/intro): Start here"`, one bullet
for the one entry. -/
theorem postBuild_index_content_witness :
    (([introDocsNode].filter isDocsPluginRoute).head? = some introDocsNode) ∧
      (selectVersion introDocsNode = some introVersion) ∧
      (postBuild [] [introDocsNode] "My Docs").llmsTxt =
        Except.ok (some "# My Docs\n\n## Docs\n\n- [Introduction](/intro): Start here") :=
  ⟨rfl, rfl,
    (postBuild_index_content [] [introDocsNode] "My Docs" introDocsNode introVersion
      rfl rfl).1⟩

/-- C8: when several route nodes carry the docs-plugin identifier, or the
selected node has several sub-routes at path `"/"`, `postBuild` takes only
the first match in array order at each level: the result is the same as on a
table containing just the first matching node, with any trailing routes and
trailing `"/"` sub-routes silently ignored. -/
theorem postBuild_uses_first_match (allMdx : List String) (siteTitle : String)
    (pre post : List Route) (pl : Plugin)
    (subpre subpost subpost2 : List SubRoute) (s : SubRoute)
    (hpre : ∀ x ∈ pre, isDocsPluginRoute x = false)
    (hpl : pl.name = "docusaurus-plugin-content-docs")
    (hsubpre : ∀ y ∈ subpre, (y.path == "/") = false)
    (hs : s.path = "/") :
    postBuild allMdx
        (pre ++ { plugin := pl, routes := some (subpre ++ s :: subpost) } :: post)
        siteTitle =
      postBuild allMdx [{ plugin := pl, routes := some (subpre ++ s :: subpost2) }]
        siteTitle := by
  have hmatch : isDocsPluginRoute { plugin := pl, routes := some (subpre ++ s :: subpost) }
      = true := by
    simp [isDocsPluginRoute, hpl]
  have hmatch2 : isDocsPluginRoute { plugin := pl, routes := some (subpre ++ s :: subpost2) }
      = true := by
    simp [isDocsPluginRoute, hpl]
  have hhead := filter_head_first isDocsPluginRoute pre hpre _ hmatch post
  have hhead2 := filter_head_first isDocsPluginRoute [] (by simp) _ hmatch2 []
  rw [List.nil_append] at hhead2
  have hsub : ∀ tail : List SubRoute,
      ((subpre ++ s :: tail).filter (fun r => r.path == "/")).head? = some s := by
    intro tail
    exact filter_head_first _ subpre hsubpre s (by simp [hs]) tail
  have hsel : selectVersion { plugin := pl, routes := some (subpre ++ s :: subpost) } =
      selectVersion { plugin := pl, routes := some (subpre ++ s :: subpost2) } := by
    simp only [selectVersion, Option.some_bind, hsub]
  simp only [postBuild, hhead, hhead2, hsel]

/-- A route node owned by a different plugin. -/
def decoyRoute : Route := { plugin := { name := "other" }, routes := none }

/-- A `"/"` sub-route without props. -/
def slashNoProps : SubRoute := { path := "/", props := none }

/-- A second `"/"` sub-route, this one carrying version metadata. -/
def slashWithVersion : SubRoute :=
  { path := "/", props := some { version := some introVersion } }

/-- A docs-plugin node with two `"/"` sub-routes. -/
def dupDocsNode : Route :=
  { plugin := { name := "docusaurus-plugin-content-docs" },
    routes := some [slashNoProps, slashWithVersion] }

/-- A second docs-plugin node, with no sub-routes. -/
def emptyDocsNode : Route :=
  { plugin := { name := "docusaurus-plugin-content-docs" }, routes := some [] }

/-- The table reduced to the first matches only. -/
def firstOnlyDocsNode : Route :=
  { plugin := { name := "docusaurus-plugin-content-docs" }, routes := some [slashNoProps] }

/-- Witness for C8: with a decoy node first, two docs-plugin nodes in the
table and two `"/"` sub-routes in the first of them, the output equals that
of the table reduced to the first matches. -/
theorem postBuild_uses_first_match_witness :
    isDocsPluginRoute decoyRoute = false ∧
      postBuild ["m"] [decoyRoute, dupDocsNode, emptyDocsNode] "T" =
        postBuild ["m"] [firstOnlyDocsNode] "T" :=
  ⟨rfl,
    postBuild_uses_first_match ["m"] "T" [decoyRoute] [emptyDocsNode]
      { name := "docusaurus-plugin-content-docs" } [] [slashWithVersion] []
      slashNoProps (by intro x hx; simp at hx; subst hx; rfl) rfl
      (by intro y hy; simp at hy) rfl⟩

/-- C1: on every directory tree whose listings are readable and whose
matching files are readable, `collect` returns exactly the sequence of
verbatim contents of the files whose name ends in `.mdx` or `.md` and whose
full path contains `"nitrolite"`, in depth-first directory-listing order,
with no transformation and no deduplication (the equality with the
spec-side enumeration `specMatchedContents`). -/
theorem collect_returns_exactly_matched_contents (rootDir : String)
    (es : EntryList) (h : cleanList rootDir es = true) :
    collect rootDir (Except.ok es) = Except.ok (specMatchedContents rootDir es) :=
  collectList_clean_eq_spec rootDir es h

/-- A sample tree: a `nitrolite` directory holding a matching readable file
and a non-matching unreadable file, next to a markdown file outside any
`nitrolite` path. -/
def sampleTree : EntryList :=
  .cons (.dir "nitrolite"
      (.cons (.file "index.md" "NITRO" true)
        (.cons (.file "notes.txt" "SECRET" false) .nil)))
    (.cons (.file "intro.md" "INTRO" true) .nil)

/-- Witness for C1 on `sampleTree`: the tree is clean, and collection
returns exactly `["NITRO"]`, the content of the one matching file. -/
theorem collect_returns_exactly_matched_contents_witness :
    cleanList "/docs" sampleTree = true ∧
      collect "/docs" (Except.ok sampleTree) =
        Except.ok (specMatchedContents "/docs" sampleTree) ∧
      specMatchedContents "/docs" sampleTree = ["NITRO"] := by
  have hclean : cleanList "/docs" sampleTree = true := rfl
  exact ⟨hclean, collect_returns_exactly_matched_contents "/docs" sampleTree hclean, rfl⟩

/-- C6: `collect` fails with the propagated filesystem error when listing
the root directory fails (missing or unreadable root), and the whole
collection aborts with an error — returning no sequence at all — as soon as
the tree contains a filter-matching file that cannot be read. -/
theorem collect_propagates_fs_errors :
    (∀ (rootDir : String) (e : FsError), collect rootDir (Except.error e) = Except.error e) ∧
      (∀ (dirPath : String) (es : EntryList), hasUnreadableMatch dirPath es = true →
        ∃ e, collectList dirPath es = Except.error e) := by
  constructor
  · intro rootDir e
    rfl
  · intro dirPath es
    induction dirPath, es using entryList_induction with
    | h1 d => intro h; simp [hasUnreadableMatch] at h
    | h2 d n c r rest ih =>
      intro h
      simp only [hasUnreadableMatch, Bool.or_eq_true, Bool.and_eq_true] at h
      rcases h with ⟨hm, hr⟩ | hrest
      · have hrf : r = false := by cases r <;> simp_all
        subst hrf
        exact ⟨"EACCES: open " ++ joinPath d n, by simp [collectList, hm, readFile]⟩
      · obtain ⟨e, he⟩ := ih hrest
        by_cases hm : matchesFilter n (joinPath d n) = true
        · cases r with
          | false =>
            exact ⟨"EACCES: open " ++ joinPath d n, by simp [collectList, hm, readFile]⟩
          | true => exact ⟨e, by simp [collectList, hm, readFile, he]⟩
        · exact ⟨e, by simp [collectList, hm, he]⟩
    | h3 d n sub rest ihsub ihrest =>
      intro h
      simp only [hasUnreadableMatch, Bool.or_eq_true] at h
      rcases h with hsub | hrest
      · obtain ⟨e, he⟩ := ihsub hsub
        exact ⟨e, by simp [collectList, he]⟩
      · obtain ⟨e, he⟩ := ihrest hrest
        cases hc : collectList (joinPath d n) sub with
        | error e2 => exact ⟨e2, by simp [collectList, hc]⟩
        | ok xs => exact ⟨e, by simp [collectList, hc, he]⟩
    | h4 d n rest ih =>
      intro _
      exact ⟨"EACCES: scandir " ++ joinPath d n, by simp [collectList]⟩

/-- A tree whose only matching file is unreadable. -/
def badTree : EntryList :=
  .cons (.dir "nitrolite" (.cons (.file "index.md" "NITRO" false) .nil)) .nil

/-- Witness for C6: a missing root propagates its error, and a tree whose
only matching file is unreadable aborts with an error. -/
theorem collect_propagates_fs_errors_witness :
    collect "/docs" (Except.error "ENOENT") = Except.error "ENOENT" ∧
      hasUnreadableMatch "/docs" badTree = true ∧
      ∃ e, collectList "/docs" badTree = Except.error e := by
  have hbad : hasUnreadableMatch "/docs" badTree = true := rfl
  exact ⟨collect_propagates_fs_errors.1 "/docs" "ENOENT", hbad,
    collect_propagates_fs_errors.2 "/docs" badTree hbad⟩

/-- C9: the traversal never opens a file that fails the filter — every path
passed to `readFile` is the full path of a file whose name ends in `.mdx`
or `.md` and whose path contains `"nitrolite"` — and on a tree whose
matching files are readable the set of files read is exactly the set of
matching files (the embedding is read-only: `collectTraceList` records
reads and performs no writes). -/
theorem collect_reads_only_matching_files :
    (∀ (dirPath : String) (es : EntryList) (p : String),
        p ∈ (collectTraceList dirPath es).1 → p ∈ specMatchedPaths dirPath es) ∧
      (∀ (dirPath : String) (es : EntryList), cleanList dirPath es = true →
        (collectTraceList dirPath es).1 = specMatchedPaths dirPath es) := by
  constructor
  · intro d es p hp
    exact (collectTraceList_reads_initialSegment d es).subset hp
  · intro d es h
    apply collectTraceList_ok_reads_eq d es (specMatchedContents d es)
    rw [collectTraceList_result d es, collectList_clean_eq_spec d es h]

/-- Witness for C9 on `sampleTree`: the tree is clean, the reads are
exactly the matching paths, and the matching file that is read is indeed a
matching file — never the unreadable non-matching `notes.txt`. -/
theorem collect_reads_only_matching_files_witness :
    cleanList "/docs" sampleTree = true ∧
      (collectTraceList "/docs" sampleTree).1 = specMatchedPaths "/docs" sampleTree ∧
      "/docs/nitrolite/index.md" ∈ (collectTraceList "/docs" sampleTree).1 ∧
      "/docs/nitrolite/index.md" ∈ specMatchedPaths "/docs" sampleTree := by
  have hclean : cleanList "/docs" sampleTree = true := rfl
  have hmem : "/docs/nitrolite/index.md" ∈ (collectTraceList "/docs" sampleTree).1 := by
    have hreads : (collectTraceList "/docs" sampleTree).1 = ["/docs/nitrolite/index.md"] :=
      rfl
    rw [hreads]
    exact List.mem_singleton.mpr rfl
  exact ⟨hclean, collect_reads_only_matching_files.2 "/docs" sampleTree hclean, hmem,
    collect_reads_only_matching_files.1 "/docs" sampleTree "/docs/nitrolite/index.md" hmem⟩

/-- C10: the recursion of `getMdxFiles` terminates on every finite acyclic
directory tree, because each recursive call descends into a strictly
shallower subtree: with any fuel bound of at least the nesting depth of the
tree, the fuel-indexed traversal never runs out of fuel and computes the
same result as the recursive traversal. -/
theorem collectFuelList_terminates :
    ∀ (dirPath : String) (es : EntryList) (fuel : Nat), depthList es ≤ fuel →
      collectFuelList fuel dirPath es = some (collectList dirPath es) := by
  intro dirPath es
  induction dirPath, es using entryList_induction with
  | h1 d => intro fuel _; simp [collectFuelList, collectList]
  | h2 d n c r rest ih =>
    intro fuel hd
    have hd2 : depthList rest ≤ fuel := by simpa [depthList] using hd
    by_cases hm : matchesFilter n (joinPath d n) = true
    · cases r with
      | false => simp [collectFuelList, collectList, hm, readFile]
      | true =>
        cases hc : collectList d rest with
        | error e => simp [collectFuelList, collectList, hm, readFile, ih fuel hd2, hc]
        | ok ys => simp [collectFuelList, collectList, hm, readFile, ih fuel hd2, hc]
    · simp [collectFuelList, collectList, hm, ih fuel hd2]
  | h3 d n sub rest ihsub ihrest =>
    intro fuel hd
    simp only [depthList, Nat.max_le] at hd
    obtain ⟨hdsub, hdrest⟩ := hd
    cases fuel with
    | zero => omega
    | succ f =>
      have hsub : depthList sub ≤ f := by omega
      cases hcs : collectList (joinPath d n) sub with
      | error e => simp [collectFuelList, collectList, ihsub f hsub, hcs]
      | ok xs =>
        cases hcr : collectList d rest with
        | error e =>
          simp [collectFuelList, collectList, ihsub f hsub, ihrest (f + 1) hdrest, hcs, hcr]
        | ok ys =>
          simp [collectFuelList, collectList, ihsub f hsub, ihrest (f + 1) hdrest, hcs, hcr]
  | h4 d n rest ih =>
    intro fuel _
    simp [collectFuelList, collectList]

/-- Witness for C10 on `sampleTree`: its nesting depth is at most one, so
one unit of fuel suffices. -/
theorem collectFuelList_terminates_witness :
    depthList sampleTree ≤ 1 ∧
      collectFuelList 1 "/docs" sampleTree = some (collectList "/docs" sampleTree) := by
  have hd : depthList sampleTree ≤ 1 := by decide
  exact ⟨hd, collectFuelList_terminates "/docs" sampleTree 1 hd⟩
